import Mathlib

/-!
A shallow embedding of the `leveled-hash-map` Rust crate (`src/lib.rs`) and a
verification of the specification's claims about it.

Modelling conventions:
* `HashMap<Arc<K>, β>` is modelled as an association list `List (K × β)` with
  first-occurrence lookup; `HashSet<Arc<K>>` as a `List K` used as a set.
  Iteration order of a hash map is unspecified in Rust; here it is the list
  order, which is irrelevant to the claims settled below.
* Machine integers (`usize`) are `Nat`; the crate never overflows them
  (lengths of in-memory vectors).
* Fallible code returns `Except`; a Rust panic (a failing `unwrap`, or an
  out-of-bounds `Vec` index) is modelled by the whole operation returning
  `none`, so every mutating operation has type `... → Option (result × state)`.
-/

set_option linter.unusedVariables false
set_option linter.unusedSectionVars false

deriving instance DecidableEq for Except

variable {K V : Type} [DecidableEq K] [Inhabited K]

/-- First-occurrence lookup in an association list (models `HashMap::get`). -/
def findA : List (K × α) → K → Option α
  | [], _ => none
  | (k', b) :: t, k => if k = k' then some b else findA t k

/-- Insert-or-replace in an association list (models `HashMap::insert`'s
state change; the previous value is read off with `findA` beforehand). -/
def insertA : List (K × α) → K → α → List (K × α)
  | [], k, b => [(k, b)]
  | (k', b') :: t, k, b => if k = k' then (k', b) :: t else (k', b') :: insertA t k b

/-- Remove the (first) entry of a key (models `HashMap::remove`'s state change). -/
def eraseA : List (K × α) → K → List (K × α)
  | [], _ => []
  | (k', b') :: t, k => if k = k' then t else (k', b') :: eraseA t k

/-- Add an element to a set (models `HashSet::insert`). -/
def insertS (l : List K) (k : K) : List K :=
  if k ∈ l then l else l ++ [k]

/-- Remove an element from a set (models `HashSet::remove`). -/
def eraseS : List K → K → List K
  | [], _ => []
  | k' :: t, k => if k = k' then t else k' :: eraseS t k

/-- The error enum `LeveledHashMapError` of the crate. -/
inductive LeveledHashMapError (K : Type) where
  | keyTooMany
  | keyNotExist (level : Nat) (key : K)
  | keyChainEmpty
  | keyChainIncorrect (level : Nat) (key : K) (lastKey : Option K)
  deriving DecidableEq, Repr

/-- The `LeveledHashMap` struct: `pool` holds, per level, the map
key ↦ (parent key, value); `sub` holds, per level, the map key ↦ child-key set. -/
structure LeveledHashMap (K V : Type) where
  pool : List (List (K × (Option K × V)))
  sub : List (List (K × List K))
  deriving DecidableEq, Repr

instance removeResultDecEq {K V : Type} [DecidableEq K] [DecidableEq V] :
    DecidableEq (Option K × V × List (List (K × (Option K × V)))) :=
  fun a b =>
    @instDecidableEqProd _ _ inferInstance
      (fun c d => instDecidableEqProd c d) a b

namespace LeveledHashMap

/-- Models `LeveledHashMap::new`. -/
def new : LeveledHashMap K V := ⟨[], []⟩

/-- The loop of `get_professional` (lib.rs lines 348–399): walk the chain from
level `ii`, remembering the previous chain key in `lk`; on each found entry
whose level is beyond `start`, compare the stored parent with `lk`.  The
`[]` case is unreachable (the caller rejects empty chains first). -/
def getProfGo (pool : List (List (K × (Option K × V)))) (start : Nat) :
    List K → Nat → Option K → Except (LeveledHashMapError K) (Option K × V)
  | [], _, _ => .error .keyChainEmpty
  | [ck], ii, lk =>
    match findA (pool.getD ii []) ck with
    | some (pk, v) =>
      if start < ii ∧ ¬lk = pk then .error (.keyChainIncorrect ii ck pk)
      else .ok (pk, v)
    | none => .error (.keyNotExist ii ck)
  | ck :: ck2 :: rest, ii, lk =>
    match findA (pool.getD ii []) ck with
    | some (pk, _) =>
      if start < ii ∧ ¬lk = pk then .error (.keyChainIncorrect ii ck pk)
      else getProfGo pool start (ck2 :: rest) (ii + 1) (some ck)
    | none => .error (.keyNotExist ii ck)

/-- Models `LeveledHashMap::get_professional` (read-only, so it cannot panic). -/
def get_professional (s : LeveledHashMap K V) (chain : List K) (start : Nat) :
    Except (LeveledHashMapError K) (Option K × V) :=
  if chain.length = 0 then .error .keyChainEmpty
  else if s.pool.length < chain.length + start then .error .keyTooMany
  else getProfGo s.pool start chain start none

/-- Models `LeveledHashMap::get_advanced`. -/
def get_advanced (s : LeveledHashMap K V) (chain : List K) (start : Nat) : Option V :=
  (get_professional s chain start).toOption.map (·.2)

/-- Models `LeveledHashMap::get`. -/
def get (s : LeveledHashMap K V) (chain : List K) : Option V :=
  get_advanced s chain 0

/-- Models `LeveledHashMap::insert` (lib.rs lines 687–794).  Returns `none` when the
Rust code would panic (the two `unwrap`s on `self.sub[...].get_mut(...)`, and
out-of-range `Vec` indexing). -/
def insert (s : LeveledHashMap K V) (chain : List K) (v : V) :
    Option (Except (LeveledHashMapError K) (Option V) × LeveledHashMap K V) :=
  let n := chain.length
  if n = 0 then some (.error .keyChainEmpty, s)
  else
    let d := n - 1
    if s.pool.length < d then some (.error .keyTooMany, s)
    else
      match get_professional s chain 0 with
      | .ok _ =>
        match s.pool.get? d with
        | none => none
        | some m =>
          if 0 < d then
            let m' := insertA m (chain.getD d default) (some (chain.getD (d - 1) default), v)
            some (.ok ((findA m (chain.getD d default)).map (·.2)),
              { s with pool := s.pool.set d m' })
          else
            let m' := insertA m (chain.getD 0 default) (none, v)
            some (.ok ((findA m (chain.getD 0 default)).map (·.2)),
              { s with pool := s.pool.set 0 m' })
      | .error e =>
        match e with
        | .keyChainEmpty => some (.error .keyChainEmpty, s)
        | .keyTooMany =>
          if s.pool.length = 0 then
            some (.ok none, ⟨s.pool ++ [[(chain.getD 0 default, (none, v))]],
              s.sub ++ [[(chain.getD 0 default, [])]]⟩)
          else
            let s1 : LeveledHashMap K V :=
              ⟨s.pool ++ [[(chain.getD d default, (some (chain.getD (d - 1) default), v))]],
               s.sub ++ [[(chain.getD d default, [])]]⟩
            match s1.sub.get? (d - 1) with
            | none => none
            | some m1 =>
              match findA m1 (chain.getD (d - 1) default) with
              | none => none
              | some set =>
                let m1' := insertA m1 (chain.getD (d - 1) default) (insertS set (chain.getD d default))
                some (.ok none, { s1 with sub := s1.sub.set (d - 1) m1' })
        | .keyChainIncorrect lv k lk => some (.error (.keyChainIncorrect lv k lk), s)
        | .keyNotExist lv k =>
          match s.sub.get? lv with
          | none => none
          | some msub =>
            let s1 := { s with sub := s.sub.set lv (insertA msub (chain.getD d default) []) }
            if 0 < lv then
              match s1.pool.get? lv with
              | none => none
              | some mp =>
                let mp' := insertA mp k (some (chain.getD (d - 1) default), v)
                let s2 := { s1 with pool := s1.pool.set lv mp' }
                match s2.sub.get? (lv - 1) with
                | none => none
                | some m1 =>
                  match findA m1 (chain.getD (d - 1) default) with
                  | none => none
                  | some set =>
                    let m1' := insertA m1 (chain.getD (d - 1) default) (insertS set (chain.getD d default))
                    some (.ok none, { s2 with sub := s2.sub.set (lv - 1) m1' })
            else
              match s1.pool.get? 0 with
              | none => none
              | some mp =>
                some (.ok none, { s1 with pool := s1.pool.set 0 (insertA mp k (none, v)) })

/-- The validation loop of `insert_many` (lib.rs lines 853–867): scan all
incoming keys for a parent conflict at the target level before mutating,
building the `temp` map.  `none` models the panic of `pk.as_ref().unwrap()`. -/
def validateGo (poolL : List (K × (Option K × V))) (level : Nat) (lastKey : K) :
    List (K × V) → List (K × V) →
    Option (Except (LeveledHashMapError K) (List (K × V)))
  | [], temp => some (.ok temp)
  | (k, v) :: rest, temp =>
    match findA poolL k with
    | some (pk, _) =>
      match pk with
      | none => none
      | some p =>
        if lastKey = p then validateGo poolL level lastKey rest (insertA temp k v)
        else some (.error (.keyChainIncorrect level k (some p)))
    | none => validateGo poolL level lastKey rest (insertA temp k v)

/-- The mutation loop of `insert_many` (lib.rs lines 869–879): insert each
entry of `temp` at `level` with parent `lastKey`, collecting previous values;
for brand-new keys register an empty child set and the parent's child link. -/
def insertManyGo (level : Nat) (lastKey : K) :
    LeveledHashMap K V → List (K × V) → List (K × V) →
    Option (LeveledHashMap K V × List (K × V))
  | s, [], prev => some (s, prev)
  | s, (k, v) :: rest, prev =>
    match s.pool.get? level with
    | none => none
    | some pm =>
      let old := findA pm k
      let s1 := { s with pool := s.pool.set level (insertA pm k (some lastKey, v)) }
      match old with
      | some (_, ov) => insertManyGo level lastKey s1 rest (insertA prev k ov)
      | none =>
        match s1.sub.get? level with
        | none => none
        | some sm =>
          let s2 := { s1 with sub := s1.sub.set level (insertA sm k []) }
          match s2.sub.get? (level - 1) with
          | none => none
          | some sm1 =>
            match findA sm1 lastKey with
            | none => none
            | some set =>
              let sm1' := insertA sm1 lastKey (insertS set k)
              insertManyGo level lastKey { s2 with sub := s2.sub.set (level - 1) sm1' } rest prev

/-- The level-0 loop of `insert_many`'s empty-chain special case
(lib.rs lines 918–928): seed level 0 directly with no parent bookkeeping. -/
def insertMany0Go :
    LeveledHashMap K V → List (K × V) → List (K × V) →
    Option (LeveledHashMap K V × List (K × V))
  | s, [], prev => some (s, prev)
  | s, (k, v) :: rest, prev =>
    match s.pool.get? 0 with
    | none => none
    | some pm =>
      let old := findA pm k
      let s1 := { s with pool := s.pool.set 0 (insertA pm k (none, v)) }
      match old with
      | some (_, ov) => insertMany0Go s1 rest (insertA prev k ov)
      | none =>
        match s1.sub.get? 0 with
        | none => none
        | some sm => insertMany0Go { s1 with sub := s1.sub.set 0 (insertA sm k []) } rest prev

/-- Models `LeveledHashMap::insert_many` (lib.rs lines 824–935). -/
def insert_many (s : LeveledHashMap K V) (chain : List K) (value : List (K × V))
    (start : Nat) :
    Option (Except (LeveledHashMapError K) (List (K × V)) × LeveledHashMap K V) :=
  if s.pool.length + 1 < chain.length then some (.error .keyTooMany, s)
  else
    match get_professional s chain start with
    | .ok _ =>
      let d := chain.length - 1
      let level := chain.length + start
      let s1 := if s.pool.length ≤ level
        then ⟨s.pool ++ [[]], s.sub ++ [[]]⟩ else s
      let lastKey := chain.getD d default
      match s1.pool.get? level with
      | none => none
      | some poolL =>
        match validateGo poolL level lastKey value [] with
        | none => none
        | some (.error e) => some (.error e, s1)
        | some (.ok temp) =>
          match insertManyGo level lastKey s1 temp [] with
          | none => none
          | some (s2, prev) => some (.ok prev, s2)
    | .error e =>
      match e with
      | .keyChainIncorrect lv k lk => some (.error (.keyChainIncorrect lv k lk), s)
      | .keyNotExist lv k => some (.error (.keyNotExist lv k), s)
      | .keyTooMany => some (.error .keyTooMany, s)
      | .keyChainEmpty =>
        if 0 < start then some (.error .keyChainEmpty, s)
        else
          let s1 : LeveledHashMap K V := if s.pool.length = 0
            then ⟨s.pool ++ [[]], s.sub ++ [[]]⟩ else s
          match insertMany0Go s1 value [] with
          | none => none
          | some (s2, prev) => some (.ok prev, s2)

/-- Models the inner loop (lib.rs lines 645–647) that folds one removed
depth-map into an accumulated one. -/
def mergeInto (src dst : List (K × (Option K × V))) : List (K × (Option K × V)) :=
  src.foldl (fun h kv => insertA h kv.1 kv.2) dst

/-- One iteration of the index loop in `remove_professional`'s merge
(lib.rs lines 643–651): at index `i`, either merge `c[i]` into the existing
`sub_values[i]` or push `c[i]`, and delete index `i` from `c`. -/
def mergeStep (sv c : List (List (K × (Option K × V)))) (i : Nat) :
    List (List (K × (Option K × V))) × List (List (K × (Option K × V))) :=
  (if i < sv.length then sv.set i (mergeInto (c.getD i []) (sv.getD i [])) else sv ++ [c.getD i []],
   c.eraseIdx i)

/-- The index loop `for i in (0..len).rev()` of the merge, run from `i` down to `0`. -/
def mergeDescGo (sv c : List (List (K × (Option K × V)))) :
    Nat → List (List (K × (Option K × V)))
  | 0 => (mergeStep sv c 0).1
  | i + 1 =>
    let p := mergeStep sv c (i + 1)
    mergeDescGo p.1 p.2 i

/-- Merge one removed child's descendants list `c` into the accumulated
`sub_values` (lib.rs lines 637–651): `c.reverse()` followed by the
descending index loop. -/
def mergeSibling (sv c : List (List (K × (Option K × V)))) :
    List (List (K × (Option K × V))) :=
  match c.length with
  | 0 => sv
  | n + 1 => mergeDescGo sv c.reverse n

/-- The `for s in sub` loop of `remove_professional` (lib.rs lines 634–654):
recursively remove each direct child at `level + 1` (the `rec` argument is
the recursive call one fuel step down; `.unwrap()` on its `Result` means an
`Err` is a panic), merging descendants and collecting the children into
`my_sub_values`. -/
def removeChildrenGo
    (rec : LeveledHashMap K V → List K → Nat →
      Option (Except (LeveledHashMapError K)
        (Option K × V × List (List (K × (Option K × V)))) × LeveledHashMap K V))
    (level : Nat) :
    LeveledHashMap K V → List K → List (List (K × (Option K × V))) →
    List (K × (Option K × V)) →
    Option (LeveledHashMap K V × List (List (K × (Option K × V))) × List (K × (Option K × V)))
  | st, [], sv, my => some (st, sv, my)
  | st, sk :: rest, sv, my =>
    match rec st [sk] (level + 1) with
    | none => none
    | some (.error _, _) => none
    | some (.ok (a, b, c), st') =>
      removeChildrenGo rec level st' rest (mergeSibling sv c) (insertA my sk (a, b))

/-- Models `remove_professional` (lib.rs lines 601–659), with a fuel parameter
bounding the recursion depth (each recursive call is one level deeper, so
`pool.length + 1` fuel at the top is never exhausted). -/
def removeProfGo :
    Nat → LeveledHashMap K V → List K → Nat →
    Option (Except (LeveledHashMapError K)
      (Option K × V × List (List (K × (Option K × V)))) × LeveledHashMap K V)
  | 0, _, _, _ => none
  | fuel + 1, s, chain, start =>
    match get_professional s chain start with
    | .error e => some (.error e, s)
    | .ok (lastKey, _) =>
      let d := chain.length - 1
      let level := d + start
      match s.pool.get? level with
      | none => none
      | some pm =>
        match findA pm (chain.getD d default) with
        | none => none
        | some pkv =>
          let sA := { s with pool := s.pool.set level (eraseA pm (chain.getD d default)) }
          let step2 : Option (LeveledHashMap K V) :=
            if 0 < level then
              match lastKey with
              | none => none
              | some lk =>
                match sA.sub.get? (level - 1) with
                | none => none
                | some m1 =>
                  match findA m1 lk with
                  | none => some sA
                  | some set =>
                    some { sA with sub := sA.sub.set (level - 1) (insertA m1 lk (eraseS set (chain.getD d default))) }
            else some sA
          match step2 with
          | none => none
          | some sB =>
            match sB.sub.get? level with
            | none => none
            | some sm =>
              match findA sm (chain.getD d default) with
              | none => none
              | some childSet =>
                let sC := { sB with sub := sB.sub.set level (eraseA sm (chain.getD d default)) }
                if childSet = [] then some (.ok (pkv.1, pkv.2, []), sC)
                else
                  match removeChildrenGo (removeProfGo fuel) level sC childSet [] [] with
                  | none => none
                  | some (sD, sv, my) => some (.ok (pkv.1, pkv.2, my :: sv), sD)

/-- Models `LeveledHashMap::remove_professional`. -/
def remove_professional (s : LeveledHashMap K V) (chain : List K) (start : Nat) :
    Option (Except (LeveledHashMapError K)
      (Option K × V × List (List (K × (Option K × V)))) × LeveledHashMap K V) :=
  removeProfGo (s.pool.length + 1) s chain start

/-- Models `LeveledHashMap::remove_advanced` (drops the error into `none` of the
result component; the map is returned unchanged in that case). -/
def remove_advanced (s : LeveledHashMap K V) (chain : List K) (start : Nat) :
    Option (Option (V × List (List (K × (Option K × V)))) × LeveledHashMap K V) :=
  match remove_professional s chain start with
  | none => none
  | some (.ok (_, v, ds), s') => some (some (v, ds), s')
  | some (.error _, s') => some (none, s')

/-- Models `LeveledHashMap::remove`. -/
def remove (s : LeveledHashMap K V) (chain : List K) :
    Option (Option (V × List (List (K × (Option K × V)))) × LeveledHashMap K V) :=
  remove_advanced s chain 0

/-- Models `LeveledHashMap::keys`. -/
def keys (s : LeveledHashMap K V) (level : Nat) : Option (List (K × List K)) :=
  s.sub.get? level

/-- The structural invariant of the spec (§3): `pool` and `sub` have equal
length, and at every level their key domains coincide. -/
def Inv (s : LeveledHashMap K V) : Prop :=
  s.pool.length = s.sub.length ∧
  ∀ L, L < s.pool.length →
    ((s.pool.getD L []).all (fun kv => (findA (s.sub.getD L []) kv.1).isSome) = true ∧
     (s.sub.getD L []).all (fun kv => (findA (s.pool.getD L []) kv.1).isSome) = true)

instance (s : LeveledHashMap K V) : Decidable (Inv s) := by
  unfold Inv; infer_instance

/-- The entry stored for key `k` at level `L` of a pool. -/
def entryAt (pool : List (List (K × (Option K × V)))) (L : Nat) (k : K) :
    Option (Option K × V) :=
  findA (pool.getD L []) k

/-- The broken reachable state used against C9: produced by the insert
sequence `[30]`, `[30,31]`, `[30,31,32]`, `[40]`, `[30,40,33]` — the last
insert hits `KeyNotExist` at the intermediate level 1 and corrupts the map. -/
def c9badState : LeveledHashMap Nat Nat :=
  ⟨[[(30, (none, 1)), (40, (none, 4))],
    [(31, (some 30, 2)), (40, (some 40, 5))],
    [(32, (some 31, 3))]],
   [[(30, [31]), (40, [33])],
    [(31, [32]), (33, [])],
    [(32, [])]]⟩

/-- The four-level single-path map 0 → 1 → 2 → 3 (values 10, 11, 12, 13). -/
def c1State : LeveledHashMap Nat Nat :=
  ⟨[[(0, (none, 10))], [(1, (some 0, 11))], [(2, (some 1, 12))], [(3, (some 2, 13))]],
   [[(0, [1])], [(1, [2])], [(2, [3])], [(3, [])]]⟩

/-- The one-level map holding key 10 (value 100). -/
def c2State : LeveledHashMap Nat Nat := ⟨[[(10, (none, 100))]], [[(10, [])]]⟩

/-- The three-level single-path map 0 → 1 → 2 (values 1, 2, 3). -/
def c2State3 : LeveledHashMap Nat Nat :=
  ⟨[[(0, (none, 1))], [(1, (some 0, 2))], [(2, (some 1, 3))]],
   [[(0, [1])], [(1, [2])], [(2, [])]]⟩

/-- The state reached by the four panic-free inserts `[10]`, `[10,11]`,
`[10,11,12]`, `[20]`; it still satisfies the invariant. -/
def c3Before : LeveledHashMap Nat Nat :=
  ⟨[[(10, (none, 1)), (20, (none, 4))], [(11, (some 10, 2))], [(12, (some 11, 3))]],
   [[(10, [11]), (20, [])], [(11, [12])], [(12, [])]]⟩

/-- The four-level single-path map 5 → 6 → 7 → 8 (values 20, 21, 22, 23):
key 5 has N = 1 direct children and M = 1 grandchildren (and one
great-grandchild). -/
def c6State : LeveledHashMap Nat Nat :=
  ⟨[[(5, (none, 20))], [(6, (some 5, 21))], [(7, (some 6, 22))], [(8, (some 7, 23))]],
   [[(5, [6])], [(6, [7])], [(7, [8])], [(8, [])]]⟩

/-- The reachable two-level map 0 → 1 (values 1, 2). -/
def c4State : LeveledHashMap Nat Nat :=
  ⟨[[(0, (none, 1))], [(1, (some 0, 2))]], [[(0, [1])], [(1, [])]]⟩

/-- The state after the witness insert for C4. -/
def c4After : LeveledHashMap Nat Nat :=
  ⟨[[(0, (none, 1))], [(1, (some 0, 2))], [(7, (some 1, 9))]],
   [[(0, [1])], [(1, [7])], [(7, [])]]⟩

/-- Run a sequence of `insert` calls from a starting state, threading the map
through and stopping (with `none`) only on a panic; used to exhibit states
reachable through the public API. -/
def runInserts : LeveledHashMap K V → List (List K × V) → Option (LeveledHashMap K V)
  | s, [] => some s
  | s, (chain, v) :: rest =>
    match insert s chain v with
    | none => none
    | some (_, s') => runInserts s' rest

/-- Replay of the crate's own integration test (tests/leveled_hash_map.rs)
with its string keys renamed to numerals (food 1, animal 2, plant 3,
dessert 4, cake 5, pudding 6, mammal 7, cheese cake 8, bacterium 9,
virus 10, meat 11, soup 12): every assertion of the test, evaluated in the
model.  Used to validate the embedding against the crate's observed
behaviour. -/
def crateTestReplay : Bool :=
  match runInserts (new : LeveledHashMap Nat Nat)
      [([1], 10), ([2], 11), ([3], 12), ([3], 13), ([1, 4], 20), ([1, 4], 21),
       ([1, 4, 5], 30), ([1, 4, 6], 31), ([2, 7], 77), ([1, 4, 5], 30),
       ([1, 4, 5, 8], 40)] with
  | none => false
  | some s =>
    (get_advanced s [1] 0 == some 10) &&
    (get_advanced s [4] 1 == some 21) &&
    (get_advanced s [6] 2 == some 31) &&
    (get_advanced s [7] 1 == some 77) &&
    (get_advanced s [1, 4, 5, 8] 0 == some 40) &&
    (match insert s [2, 4] 205 with
     | some (.error (.keyChainIncorrect _ _ _), _) => true
     | _ => false) &&
    (match remove_advanced s [1, 4] 0 with
     | some (some (v, ds), s2) =>
       (v == 21) && (ds.length == 2) && ((ds.getD 0 []).length == 2) &&
       (match insert_many s2 [] [(9, 50), (10, 51), (1, 55)] 0 with
        | some (.ok prev, s3) =>
          (findA prev 1 == some 10) &&
          (get_advanced s3 [9] 0 == some 50) &&
          (get_advanced s3 [10] 0 == some 51) &&
          (get_advanced s3 [1] 0 == some 55) &&
          (match insert_many s3 [1] [(4, 100), (11, 101), (12, 102)] 0 with
           | some (.ok prev2, s4) =>
             prev2.isEmpty &&
             (get_advanced s4 [4] 1 == some 100) &&
             (get_advanced s4 [11] 1 == some 101) &&
             (get_advanced s4 [1, 12] 0 == some 102)
           | _ => false)
        | _ => false)
     | _ => false)

end LeveledHashMap

/-! ### Basic lemmas about the association-list maps and list indexing -/

theorem findA_insertA_self (l : List (K × α)) (k : K) (b : α) :
    findA (insertA l k b) k = some b := by
  induction l with
  | nil => simp [insertA, findA]
  | cons hd t ih =>
    obtain ⟨k', b'⟩ := hd
    by_cases h : k = k' <;> simp [insertA, findA, h, ih]

theorem findA_insertA_ne (l : List (K × α)) (k k' : K) (b : α) (h : k ≠ k') :
    findA (insertA l k' b) k = findA l k := by
  induction l with
  | nil => simp [insertA, findA, h]
  | cons hd t ih =>
    obtain ⟨k₀, b₀⟩ := hd
    by_cases h0 : k' = k₀
    · subst h0; simp [insertA, findA, h]
    · by_cases h1 : k = k₀ <;> simp [insertA, findA, h0, h1, ih]

theorem findA_mem {l : List (K × α)} {k : K} {b : α} (h : findA l k = some b) :
    (k, b) ∈ l := by
  induction l with
  | nil => simp [findA] at h
  | cons hd t ih =>
    obtain ⟨k', b'⟩ := hd
    by_cases h0 : k = k'
    · subst h0
      simp [findA] at h
      simp [h]
    · simp [findA, h0] at h
      exact List.mem_cons_of_mem _ (ih h)

theorem getD_set_ne (l : List α) (i j : Nat) (a d : α) (h : i ≠ j) :
    (l.set i a).getD j d = l.getD j d := by
  simp [List.getD_eq_getElem?_getD, List.getElem?_set_ne h]

theorem getD_set_self (l : List α) (i : Nat) (a d : α) (h : i < l.length) :
    (l.set i a).getD i d = a := by
  simp [List.getD_eq_getElem?_getD, List.getElem?_set_self, h]

theorem getD_append_lt (l l' : List α) (j : Nat) (d : α) (h : j < l.length) :
    (l ++ l').getD j d = l.getD j d := by
  simp [List.getD_eq_getElem?_getD, List.getElem?_append_left h]

theorem getD_append_len (l : List α) (x d : α) :
    (l ++ [x]).getD l.length d = x := by
  simp [List.getD_eq_getElem?_getD, List.getElem?_concat_length]

theorem getD_of_length_le (l : List α) (j : Nat) (d : α) (h : l.length ≤ j) :
    l.getD j d = d := by
  simp [List.getD_eq_getElem?_getD, List.getElem?_eq_none h]

theorem getD_dropLast (l : List α) (j : Nat) (d : α) (h : j + 1 < l.length) :
    l.dropLast.getD j d = l.getD j d := by
  have hj : j < l.dropLast.length := by
    simp only [List.length_dropLast]; omega
  rw [List.getD_eq_getElem?_getD, List.getD_eq_getElem?_getD,
    List.getElem?_eq_getElem hj, List.getElem?_eq_getElem (by omega : j < l.length)]
  simp [List.getElem_dropLast]

theorem get?_eq_some_getD (l : List α) (j : Nat) (d : α) (h : j < l.length) :
    l.get? j = some (l.getD j d) := by
  rw [List.getD_eq_getElem?_getD, List.get?_eq_getElem?, List.getElem?_eq_getElem h]
  rfl

/-! ### Characterisation of the chain resolver -/

namespace LeveledHashMap

/-- The walk succeeds when every chain position exists with the lineage the
walk demands; the result is the entry of the last position. -/
theorem getProfGo_ok_intro (pool : List (List (K × (Option K × V)))) (start : Nat) :
    ∀ (chain : List K) (ii : Nat) (lk : Option K),
      chain ≠ [] → start ≤ ii →
      (∀ j, j < chain.length → ∃ p v,
        entryAt pool (ii + j) (chain.getD j default) = some (p, v) ∧
        (start < ii + j → p = (if j = 0 then lk else some (chain.getD (j - 1) default)))) →
      ∀ p v,
        entryAt pool (ii + (chain.length - 1)) (chain.getD (chain.length - 1) default)
          = some (p, v) →
      getProfGo pool start chain ii lk = .ok (p, v) := by
  intro chain
  induction chain with
  | nil => intro ii lk h; exact absurd rfl h
  | cons c rest ih =>
    intro ii lk _ hle hall p v hlast
    cases rest with
    | nil =>
      obtain ⟨p0, v0, h0, hp0⟩ := hall 0 (by simp)
      simp only [Nat.add_zero, List.getD_cons_zero] at h0 hp0
      have hp0' : start < ii → p0 = lk := by simpa using hp0
      simp only [List.length_cons, List.length_nil, Nat.add_sub_cancel, Nat.add_zero,
        List.getD_cons_zero] at hlast
      rw [entryAt] at h0 hlast
      rw [h0] at hlast
      have hpv : p0 = p ∧ v0 = v := by
        have h1 := Option.some.inj hlast
        exact ⟨congrArg Prod.fst h1, congrArg Prod.snd h1⟩
      obtain ⟨hp, hv⟩ := hpv
      subst hp; subst hv
      simp only [getProfGo]
      rw [h0]
      have hguard : ¬(start < ii ∧ ¬lk = p0) := fun h => h.2 (hp0' h.1).symm
      simp [hguard]
    | cons c2 rest' =>
      obtain ⟨p0, v0, h0, hp0⟩ := hall 0 (by simp)
      simp only [Nat.add_zero, List.getD_cons_zero] at h0 hp0
      have hp0' : start < ii → p0 = lk := by simpa using hp0
      rw [entryAt] at h0
      simp only [getProfGo]
      rw [h0]
      have hguard : ¬(start < ii ∧ ¬lk = p0) := fun h => h.2 (hp0' h.1).symm
      simp only [hguard, if_false]
      have hfacts : ∀ j, j < (c2 :: rest').length → ∃ pj vj,
          entryAt pool (ii + 1 + j) ((c2 :: rest').getD j default) = some (pj, vj) ∧
          (start < ii + 1 + j →
            pj = (if j = 0 then some c else some ((c2 :: rest').getD (j - 1) default))) := by
        intro j hj
        obtain ⟨pj, vj, hj1, hj2⟩ := hall (j + 1) (by simp only [List.length_cons] at hj ⊢; omega)
        refine ⟨pj, vj, ?_, ?_⟩
        · have hi : ii + (j + 1) = ii + 1 + j := by omega
          rw [hi] at hj1
          simpa using hj1
        · intro hlt
          have h2 := hj2 (by omega)
          simp only [Nat.succ_ne_zero, if_false, Nat.add_sub_cancel] at h2
          cases j with
          | zero => simpa using h2
          | succ j' => simpa using h2
      have hlast' : entryAt pool (ii + 1 + ((c2 :: rest').length - 1))
          ((c2 :: rest').getD ((c2 :: rest').length - 1) default) = some (p, v) := by
        have hix : ii + 1 + ((c2 :: rest').length - 1)
            = ii + ((c :: c2 :: rest').length - 1) := by
          simp only [List.length_cons]; omega
        have hgd : ((c :: c2 :: rest').getD ((c :: c2 :: rest').length - 1) default)
            = ((c2 :: rest').getD ((c2 :: rest').length - 1) default) := by
          have h3 : (c :: c2 :: rest').length - 1 = ((c2 :: rest').length - 1) + 1 := by simp
          rw [h3, List.getD_cons_succ]
        rw [hix, ← hgd]
        exact hlast
      exact ih (ii + 1) (some c) (by simp) (by omega) hfacts p v hlast'

/-- Conversely, a successful walk yields, at every chain position, an entry
whose stored parent matches the walk's expectation, and the result is the
last position's entry. -/
theorem getProfGo_ok_elim (pool : List (List (K × (Option K × V)))) (start : Nat) :
    ∀ (chain : List K) (ii : Nat) (lk : Option K) (r : Option K × V),
      start ≤ ii →
      getProfGo pool start chain ii lk = .ok r →
      (∀ j, j < chain.length → ∃ p v,
        entryAt pool (ii + j) (chain.getD j default) = some (p, v) ∧
        (start < ii + j → p = (if j = 0 then lk else some (chain.getD (j - 1) default)))) ∧
      entryAt pool (ii + (chain.length - 1)) (chain.getD (chain.length - 1) default)
        = some r := by
  intro chain
  induction chain with
  | nil => intro ii lk r hle h; simp [getProfGo] at h
  | cons c rest ih =>
    intro ii lk r hle h
    cases rest with
    | nil =>
      simp only [getProfGo] at h
      cases hfind : findA (pool.getD ii []) c with
      | none => rw [hfind] at h; cases h
      | some pv =>
        obtain ⟨p0, v0⟩ := pv
        rw [hfind] at h
        by_cases hguard : start < ii ∧ ¬lk = p0
        · simp only [hguard, if_true] at h; cases h
        · simp only [hguard, if_false] at h
          have hr : r = (p0, v0) := (Except.ok.inj h).symm
          subst hr
          constructor
          · intro j hj
            have hj0 : j = 0 := by simp at hj; omega
            subst hj0
            refine ⟨p0, v0, by simpa [entryAt] using hfind, ?_⟩
            intro hlt
            simp only [if_pos rfl]
            rcases Decidable.not_and_iff_or_not.mp hguard with h1 | h2
            · exact absurd hlt h1
            · exact (Decidable.not_not.mp h2).symm
          · simpa [entryAt] using hfind
    | cons c2 rest' =>
      simp only [getProfGo] at h
      cases hfind : findA (pool.getD ii []) c with
      | none => rw [hfind] at h; cases h
      | some pv =>
        obtain ⟨p0, v0⟩ := pv
        rw [hfind] at h
        by_cases hguard : start < ii ∧ ¬lk = p0
        · simp only [hguard, if_true] at h; cases h
        · simp only [hguard, if_false] at h
          obtain ⟨hfacts', hlast'⟩ := ih (ii + 1) (some c) r (by omega) h
          have hlk : start < ii → p0 = lk := by
            intro hlt
            rcases Decidable.not_and_iff_or_not.mp hguard with h1 | h2
            · exact absurd hlt h1
            · exact (Decidable.not_not.mp h2).symm
          constructor
          · intro j hj
            cases j with
            | zero =>
              refine ⟨p0, v0, by simpa [entryAt] using hfind, ?_⟩
              intro hlt
              simpa using hlk (by omega)
            | succ j' =>
              have hj' : j' < (c2 :: rest').length := by
                simp only [List.length_cons] at hj ⊢; omega
              obtain ⟨pj, vj, hj1, hj2⟩ := hfacts' j' hj'
              refine ⟨pj, vj, ?_, ?_⟩
              · have hi : ii + 1 + j' = ii + (j' + 1) := by omega
                rw [hi] at hj1
                simpa using hj1
              · intro hlt
                have h2 := hj2 (by omega)
                simp only [Nat.succ_ne_zero, if_false, Nat.add_sub_cancel]
                cases j' with
                | zero => simpa using h2
                | succ j'' => simpa using h2
          · have hix : ii + 1 + ((c2 :: rest').length - 1)
                = ii + ((c :: c2 :: rest').length - 1) := by
              simp only [List.length_cons]; omega
            have hgd : ((c :: c2 :: rest').getD ((c :: c2 :: rest').length - 1) default)
                = ((c2 :: rest').getD ((c2 :: rest').length - 1) default) := by
              have h3 : (c :: c2 :: rest').length - 1 = ((c2 :: rest').length - 1) + 1 := by simp
              rw [h3, List.getD_cons_succ]
            rw [hix] at hlast'
            rw [hgd]
            exact hlast'

/-- The walk fails with `KeyNotExist` at the first missing position. -/
theorem getProfGo_notExist_intro (pool : List (List (K × (Option K × V)))) (start : Nat) :
    ∀ (chain : List K) (i ii : Nat) (lk : Option K),
      i < chain.length → start ≤ ii →
      (∀ j, j < i → ∃ p v,
        entryAt pool (ii + j) (chain.getD j default) = some (p, v) ∧
        (start < ii + j → p = (if j = 0 then lk else some (chain.getD (j - 1) default)))) →
      entryAt pool (ii + i) (chain.getD i default) = none →
      getProfGo pool start chain ii lk
        = .error (.keyNotExist (ii + i) (chain.getD i default)) := by
  intro chain
  induction chain with
  | nil => intro i ii lk hi; simp at hi
  | cons c rest ih =>
    intro i ii lk hi hle hall hmiss
    cases i with
    | zero =>
      simp only [Nat.add_zero, List.getD_cons_zero] at hmiss ⊢
      rw [entryAt] at hmiss
      cases rest with
      | nil => simp only [getProfGo]; rw [hmiss]
      | cons c2 rest' => simp only [getProfGo]; rw [hmiss]
    | succ i' =>
      obtain ⟨c2, rest', rfl⟩ : ∃ c2 rest', rest = c2 :: rest' := by
        cases rest with
        | nil => simp only [List.length_cons, List.length_nil] at hi; omega
        | cons a t => exact ⟨a, t, rfl⟩
      obtain ⟨p0, v0, h0, hp0⟩ := hall 0 (by omega)
      simp only [Nat.add_zero, List.getD_cons_zero] at h0 hp0
      have hp0' : start < ii → p0 = lk := by simpa using hp0
      rw [entryAt] at h0
      simp only [getProfGo]
      rw [h0]
      have hguard : ¬(start < ii ∧ ¬lk = p0) := fun h => h.2 (hp0' h.1).symm
      simp only [hguard, if_false]
      have hall' : ∀ j, j < i' → ∃ p v,
          entryAt pool (ii + 1 + j) ((c2 :: rest').getD j default) = some (p, v) ∧
          (start < ii + 1 + j →
            p = (if j = 0 then some c else some ((c2 :: rest').getD (j - 1) default))) := by
        intro j hj
        obtain ⟨pj, vj, hj1, hj2⟩ := hall (j + 1) (by omega)
        refine ⟨pj, vj, ?_, ?_⟩
        · have hix : ii + (j + 1) = ii + 1 + j := by omega
          rw [hix] at hj1
          simpa using hj1
        · intro hlt
          have h2 := hj2 (by omega)
          simp only [Nat.succ_ne_zero, if_false, Nat.add_sub_cancel] at h2
          cases j with
          | zero => simpa using h2
          | succ j' => simpa using h2
      have hmiss' : entryAt pool (ii + 1 + i') ((c2 :: rest').getD i' default) = none := by
        have hix : ii + (i' + 1) = ii + 1 + i' := by omega
        rw [hix] at hmiss
        simpa using hmiss
      have hres := ih i' (ii + 1) (some c)
        (by simp only [List.length_cons] at hi ⊢; omega) (by omega) hall' hmiss'
      rw [hres]
      have hix : ii + 1 + i' = ii + (i' + 1) := by omega
      rw [hix]
      simp

/-- The walk fails with `KeyChainIncorrect` at the first position whose
stored parent disagrees with the preceding chain key. -/
theorem getProfGo_incorrect_intro (pool : List (List (K × (Option K × V)))) (start : Nat) :
    ∀ (chain : List K) (i ii : Nat) (lk : Option K) (p : Option K) (v : V),
      i < chain.length → start ≤ ii →
      (∀ j, j < i → ∃ pj vj,
        entryAt pool (ii + j) (chain.getD j default) = some (pj, vj) ∧
        (start < ii + j → pj = (if j = 0 then lk else some (chain.getD (j - 1) default)))) →
      entryAt pool (ii + i) (chain.getD i default) = some (p, v) →
      start < ii + i →
      ¬p = (if i = 0 then lk else some (chain.getD (i - 1) default)) →
      getProfGo pool start chain ii lk
        = .error (.keyChainIncorrect (ii + i) (chain.getD i default) p) := by
  intro chain
  induction chain with
  | nil => intro i ii lk p v hi; simp at hi
  | cons c rest ih =>
    intro i ii lk p v hi hle hall hfound hlt hne
    cases i with
    | zero =>
      simp only [Nat.add_zero] at hlt
      simp only [Nat.add_zero, List.getD_cons_zero] at hfound ⊢
      rw [entryAt] at hfound
      rw [if_pos rfl] at hne
      have hguard : start < ii ∧ ¬lk = p := ⟨hlt, fun h => hne h.symm⟩
      cases rest with
      | nil => simp only [getProfGo]; rw [hfound]; simp [hguard]
      | cons c2 rest' => simp only [getProfGo]; rw [hfound]; simp [hguard]
    | succ i' =>
      obtain ⟨c2, rest', rfl⟩ : ∃ c2 rest', rest = c2 :: rest' := by
        cases rest with
        | nil => simp only [List.length_cons, List.length_nil] at hi; omega
        | cons a t => exact ⟨a, t, rfl⟩
      obtain ⟨p0, v0, h0, hp0⟩ := hall 0 (by omega)
      simp only [Nat.add_zero, List.getD_cons_zero] at h0 hp0
      have hp0' : start < ii → p0 = lk := by simpa using hp0
      rw [entryAt] at h0
      simp only [getProfGo]
      rw [h0]
      have hguard : ¬(start < ii ∧ ¬lk = p0) := fun h => h.2 (hp0' h.1).symm
      simp only [hguard, if_false]
      have hall' : ∀ j, j < i' → ∃ pj vj,
          entryAt pool (ii + 1 + j) ((c2 :: rest').getD j default) = some (pj, vj) ∧
          (start < ii + 1 + j →
            pj = (if j = 0 then some c else some ((c2 :: rest').getD (j - 1) default))) := by
        intro j hj
        obtain ⟨pj, vj, hj1, hj2⟩ := hall (j + 1) (by omega)
        refine ⟨pj, vj, ?_, ?_⟩
        · have hix : ii + (j + 1) = ii + 1 + j := by omega
          rw [hix] at hj1
          simpa using hj1
        · intro hlt2
          have h2 := hj2 (by omega)
          simp only [Nat.succ_ne_zero, if_false, Nat.add_sub_cancel] at h2
          cases j with
          | zero => simpa using h2
          | succ j' => simpa using h2
      have hfound' : entryAt pool (ii + 1 + i') ((c2 :: rest').getD i' default)
          = some (p, v) := by
        have hix : ii + (i' + 1) = ii + 1 + i' := by omega
        rw [hix] at hfound
        simpa using hfound
      have hne' : ¬p = (if i' = 0 then some c
          else some ((c2 :: rest').getD (i' - 1) default)) := by
        simp only [Nat.succ_ne_zero, if_false, Nat.add_sub_cancel] at hne
        cases i' with
        | zero => simpa using hne
        | succ i'' => simpa using hne
      have hres := ih i' (ii + 1) (some c) p v
        (by simp only [List.length_cons] at hi ⊢; omega) (by omega) hall' hfound'
        (by omega) hne'
      rw [hres]
      have hix : ii + 1 + i' = ii + (i' + 1) := by omega
      rw [hix]
      simp

/-- The walk itself never reports `KeyTooMany`; that error only comes from
the length guard in `get_professional`. -/
theorem getProfGo_ne_tooMany (pool : List (List (K × (Option K × V)))) (start : Nat) :
    ∀ (chain : List K) (ii : Nat) (lk : Option K),
      getProfGo pool start chain ii lk ≠ .error .keyTooMany := by
  intro chain
  induction chain with
  | nil => intro ii lk h; cases h
  | cons c rest ih =>
    intro ii lk h
    cases rest with
    | nil =>
      simp only [getProfGo] at h
      cases hfind : findA (pool.getD ii []) c with
      | none => rw [hfind] at h; cases h
      | some pv =>
        obtain ⟨p0, v0⟩ := pv
        rw [hfind] at h
        by_cases hguard : start < ii ∧ ¬lk = p0
        · simp only [hguard, if_true] at h; cases h
        · simp only [hguard, if_false] at h; cases h
    | cons c2 rest' =>
      simp only [getProfGo] at h
      cases hfind : findA (pool.getD ii []) c with
      | none => rw [hfind] at h; cases h
      | some pv =>
        obtain ⟨p0, v0⟩ := pv
        rw [hfind] at h
        by_cases hguard : start < ii ∧ ¬lk = p0
        · simp only [hguard, if_true] at h; cases h
        · simp only [hguard, if_false] at h
          exact ih (ii + 1) (some c) h

/-- Success characterisation of `get_professional`, elimination direction:
every chain position holds an entry whose stored parent is the preceding
chain key, and the result is the last position's entry. -/
theorem get_professional_ok_elim {s : LeveledHashMap K V} {chain : List K} {start : Nat}
    {r : Option K × V} (h : get_professional s chain start = .ok r) :
    chain ≠ [] ∧ chain.length + start ≤ s.pool.length ∧
    (∀ j, j < chain.length → ∃ p v,
      entryAt s.pool (start + j) (chain.getD j default) = some (p, v) ∧
      (0 < j → p = some (chain.getD (j - 1) default))) ∧
    entryAt s.pool (start + (chain.length - 1)) (chain.getD (chain.length - 1) default)
      = some r := by
  rw [get_professional] at h
  by_cases h0 : chain.length = 0
  · simp only [h0, if_true] at h; cases h
  · simp only [h0, if_false] at h
    by_cases h1 : s.pool.length < chain.length + start
    · simp only [h1, if_true] at h; cases h
    · simp only [h1, if_false] at h
      obtain ⟨hfacts, hlast⟩ := getProfGo_ok_elim s.pool start chain start none r le_rfl h
      refine ⟨fun hc => h0 (by simp [hc]), by omega, ?_, hlast⟩
      intro j hj
      obtain ⟨p, v, hj1, hj2⟩ := hfacts j hj
      refine ⟨p, v, hj1, ?_⟩
      intro hjpos
      have := hj2 (by omega)
      have hj0 : ¬j = 0 := by omega
      simpa [hj0] using this

/-- Success characterisation of `get_professional`, introduction direction. -/
theorem get_professional_ok_intro (s : LeveledHashMap K V) (chain : List K) (start : Nat)
    (hne : chain ≠ []) (hlen : chain.length + start ≤ s.pool.length)
    (hall : ∀ j, j < chain.length → ∃ p v,
      entryAt s.pool (start + j) (chain.getD j default) = some (p, v) ∧
      (0 < j → p = some (chain.getD (j - 1) default)))
    (p : Option K) (v : V)
    (hlast : entryAt s.pool (start + (chain.length - 1))
      (chain.getD (chain.length - 1) default) = some (p, v)) :
    get_professional s chain start = .ok (p, v) := by
  rw [get_professional]
  have h0 : ¬chain.length = 0 := by
    intro hc; exact hne (List.length_eq_zero.mp hc)
  have h1 : ¬s.pool.length < chain.length + start := by omega
  simp only [h0, h1, if_false]
  apply getProfGo_ok_intro s.pool start chain start none hne le_rfl ?_ p v hlast
  intro j hj
  obtain ⟨pj, vj, hj1, hj2⟩ := hall j hj
  refine ⟨pj, vj, hj1, ?_⟩
  intro hlt
  have hjpos : 0 < j := by omega
  have hj0 : ¬j = 0 := by omega
  simp only [hj0, if_false]
  exact hj2 hjpos

/-- The resolver reports `KeyNotExist` at the first missing chain
position after a correct walk up to it. -/
theorem get_professional_notExist_intro (s : LeveledHashMap K V) (chain : List K)
    (start i : Nat) (hi : i < chain.length)
    (hlen : chain.length + start ≤ s.pool.length)
    (hall : ∀ j, j < i → ∃ p v,
      entryAt s.pool (start + j) (chain.getD j default) = some (p, v) ∧
      (0 < j → p = some (chain.getD (j - 1) default)))
    (hmiss : entryAt s.pool (start + i) (chain.getD i default) = none) :
    get_professional s chain start
      = .error (.keyNotExist (start + i) (chain.getD i default)) := by
  rw [get_professional]
  have h0 : ¬chain.length = 0 := by omega
  have h1 : ¬s.pool.length < chain.length + start := by omega
  simp only [h0, h1, if_false]
  apply getProfGo_notExist_intro s.pool start chain i start none hi le_rfl ?_ hmiss
  intro j hj
  obtain ⟨pj, vj, hj1, hj2⟩ := hall j hj
  refine ⟨pj, vj, hj1, ?_⟩
  intro hlt
  have hjpos : 0 < j := by omega
  have hj0 : ¬j = 0 := by omega
  simp only [hj0, if_false]
  exact hj2 hjpos

/-- The resolver reports `KeyChainIncorrect` at the first chain
position whose stored parent differs from the preceding chain key. -/
theorem get_professional_incorrect_intro (s : LeveledHashMap K V) (chain : List K)
    (start i : Nat) (p : Option K) (v : V) (hi : i < chain.length) (hipos : 0 < i)
    (hlen : chain.length + start ≤ s.pool.length)
    (hall : ∀ j, j < i → ∃ pj vj,
      entryAt s.pool (start + j) (chain.getD j default) = some (pj, vj) ∧
      (0 < j → pj = some (chain.getD (j - 1) default)))
    (hfound : entryAt s.pool (start + i) (chain.getD i default) = some (p, v))
    (hne : ¬p = some (chain.getD (i - 1) default)) :
    get_professional s chain start
      = .error (.keyChainIncorrect (start + i) (chain.getD i default) p) := by
  rw [get_professional]
  have h0 : ¬chain.length = 0 := by omega
  have h1 : ¬s.pool.length < chain.length + start := by omega
  simp only [h0, h1, if_false]
  have hi0 : ¬i = 0 := by omega
  apply getProfGo_incorrect_intro s.pool start chain i start none p v hi le_rfl ?_ hfound
    (by omega) (by simpa [hi0] using hne)
  intro j hj
  obtain ⟨pj, vj, hj1, hj2⟩ := hall j hj
  refine ⟨pj, vj, hj1, ?_⟩
  intro hlt
  have hjpos : 0 < j := by omega
  have hj0 : ¬j = 0 := by omega
  simp only [hj0, if_false]
  exact hj2 hjpos

/-- Receiving `KeyTooMany` from `get_professional` is exactly the length guard firing. -/
theorem get_professional_tooMany_elim {s : LeveledHashMap K V} {chain : List K}
    {start : Nat} (h : get_professional s chain start = .error .keyTooMany) :
    s.pool.length < chain.length + start := by
  rw [get_professional] at h
  by_cases h0 : chain.length = 0
  · simp only [h0, if_true] at h; cases h
  · simp only [h0, if_false] at h
    by_cases h1 : s.pool.length < chain.length + start
    · exact h1
    · simp only [h1, if_false] at h
      exact absurd h (getProfGo_ne_tooMany s.pool start chain start none)

/-! ### Claim C10 -/

/-- Claim C10: for every map state, calling `insert_many` with an empty
entries map and a non-empty parent chain that resolves successfully and
addresses the next not-yet-existing level (`chain.length + start` equals the
current level count) returns `Ok` with an empty previous-values map yet still
appends one new empty level, increasing the number of levels by one while
leaving all existing entries unchanged. -/
theorem claim_c10_insert_many_empty_appends_level (s : LeveledHashMap K V)
    (chain : List K) (start : Nat) (pr : Option K × V)
    (hne : chain ≠ [])
    (hok : get_professional s chain start = .ok pr)
    (hlv : chain.length + start = s.pool.length) :
    insert_many s chain [] start
      = some (.ok [], ⟨s.pool ++ [[]], s.sub ++ [[]]⟩) := by
  have hchain : 0 < chain.length := List.length_pos.mpr hne
  rw [insert_many]
  have hguard : ¬s.pool.length + 1 < chain.length := by omega
  simp only [hguard, if_false]
  rw [hok]
  have hpush : s.pool.length ≤ chain.length + start := by omega
  simp only [hpush, if_true]
  have hget : (s.pool ++ [[]]).get? (chain.length + start)
      = some ([] : List (K × (Option K × V))) := by
    rw [hlv]
    exact List.get?_concat_length s.pool []
  simp only [hget, validateGo, insertManyGo]

/-- Witness for C10 at a concrete one-level map. -/
theorem claim_c10_witness :
    get_professional (⟨[[(1, (none, 5))]], [[(1, [])]]⟩ : LeveledHashMap Nat Nat) [1] 0
      = .ok (none, 5) ∧
    insert_many (⟨[[(1, (none, 5))]], [[(1, [])]]⟩ : LeveledHashMap Nat Nat) [1] [] 0
      = some (.ok [], ⟨[[(1, (none, 5))], []], [[(1, [])], []]⟩) :=
  ⟨by decide, claim_c10_insert_many_empty_appends_level
    (⟨[[(1, (none, 5))]], [[(1, [])]]⟩ : LeveledHashMap Nat Nat) [1] 0 (none, 5)
    (by decide) (by decide) (by decide)⟩

/-! ### Claim C7 -/

/-- Claim C7: for every map state, a single-key chain `[k]` resolved at start
level `S` succeeds whenever `k` exists at level `S`, regardless of `k`'s
stored parent; whereas a chain of length ≥ 2 fails with `KeyChainIncorrect`
at the first position `i > 0` where the stored parent of `chain[i]` differs
from `chain[i-1]`, carrying that level, key, and stored parent. -/
theorem claim_c7_start_level_lineage (s : LeveledHashMap K V) :
    (∀ (k : K) (S : Nat) (p : Option K) (v : V),
      findA (s.pool.getD S []) k = some (p, v) →
      get_professional s [k] S = .ok (p, v)) ∧
    (∀ (chain : List K) (S i : Nat) (p : Option K) (v : V),
      1 < chain.length → 0 < i → i < chain.length →
      chain.length + S ≤ s.pool.length →
      (∀ j, j < i → ∃ pj vj,
        findA (s.pool.getD (S + j) []) (chain.getD j default) = some (pj, vj) ∧
        (0 < j → pj = some (chain.getD (j - 1) default))) →
      findA (s.pool.getD (S + i) []) (chain.getD i default) = some (p, v) →
      ¬p = some (chain.getD (i - 1) default) →
      get_professional s chain S
        = .error (.keyChainIncorrect (S + i) (chain.getD i default) p)) := by
  constructor
  · intro k S p v hfind
    have hS : S < s.pool.length := by
      by_contra hc
      rw [getD_of_length_le s.pool S [] (by omega)] at hfind
      simp [findA] at hfind
    apply get_professional_ok_intro s [k] S (by simp) (by simp; omega)
    · intro j hj
      have hj0 : j = 0 := by simp at hj; omega
      subst hj0
      exact ⟨p, v, by simpa [entryAt] using hfind, fun h => absurd h (by omega)⟩
    · simpa [entryAt] using hfind
  · intro chain S i p v hlen2 hipos hi hlen hall hfound hne
    exact get_professional_incorrect_intro s chain S i p v hi hipos hlen
      (fun j hj => hall j hj) (by simpa [entryAt] using hfound) hne

/-- Witness for C7 at a concrete map with keys 1, 2 at level 0 and key 3
(stored parent 1) at level 1. -/
theorem claim_c7_witness :
    get_professional
        (⟨[[(1, (none, 1)), (2, (none, 2))], [(3, (some 1, 3))]],
          [[(1, [3]), (2, [])], [(3, [])]]⟩ : LeveledHashMap Nat Nat) [3] 1
      = .ok (some 1, 3) ∧
    get_professional
        (⟨[[(1, (none, 1)), (2, (none, 2))], [(3, (some 1, 3))]],
          [[(1, [3]), (2, [])], [(3, [])]]⟩ : LeveledHashMap Nat Nat) [2, 3] 0
      = .error (.keyChainIncorrect 1 3 (some 1)) := by
  constructor
  · exact (claim_c7_start_level_lineage _).1 3 1 (some 1) 3 (by decide)
  · refine (claim_c7_start_level_lineage _).2 [2, 3] 0 1 (some 1) 3
      (by decide) (by decide) (by decide) (by decide) ?_ (by decide) (by decide)
    intro j hj
    have hj0 : j = 0 := by omega
    subst hj0
    exact ⟨none, 2, by decide, fun h => absurd h (by omega)⟩

/-- Under the invariant, a key present in the pool at some level is present
in the child index at that level. -/
theorem Inv.pool_to_sub {s : LeveledHashMap K V} (h : Inv s) {L : Nat}
    (hL : L < s.pool.length) {k : K} {x : Option K × V}
    (hf : findA (s.pool.getD L []) k = some x) :
    (findA (s.sub.getD L []) k).isSome = true := by
  have hall := (h.2 L hL).1
  rw [List.all_eq_true] at hall
  exact hall (k, x) (findA_mem hf)

/-- Under the invariant, a key present in the child index at some level is
present in the pool at that level. -/
theorem Inv.sub_to_pool {s : LeveledHashMap K V} (h : Inv s) {L : Nat}
    (hL : L < s.pool.length) {k : K} {x : List K}
    (hf : findA (s.sub.getD L []) k = some x) :
    (findA (s.pool.getD L []) k).isSome = true := by
  have hall := (h.2 L hL).2
  rw [List.all_eq_true] at hall
  exact hall (k, x) (findA_mem hf)

/-! ### Claim C8 -/

/-- Claim C8: for every map (satisfying the structural invariant) whose
deepest existing level is `L` (so `L + 1` levels exist), `insert` with a
chain of length `L + 3` or more fails with `KeyTooMany` (leaving the map
unchanged), and `insert` with a chain of length `L + 2` whose first `L + 1`
keys form a valid existing lineage succeeds, creating exactly one new
deepest level. -/
theorem claim_c8_insert_depth_limit (s : LeveledHashMap K V) (hInv : Inv s) (L : Nat)
    (hL : s.pool.length = L + 1) :
    (∀ (chain : List K) (v : V), L + 3 ≤ chain.length →
      insert s chain v = some (.error .keyTooMany, s)) ∧
    (∀ (chain : List K) (v : V) (pr : Option K × V), chain.length = L + 2 →
      get_professional s chain.dropLast 0 = .ok pr →
      ∃ s', insert s chain v = some (.ok none, s') ∧ s'.pool.length = L + 2) := by
  constructor
  · intro chain v hlen
    rw [insert]
    have hn0 : ¬chain.length = 0 := by omega
    have hd : s.pool.length < chain.length - 1 := by omega
    simp [hn0, hd]
  · intro chain v pr hlen hdrop
    have hn0 : ¬chain.length = 0 := by omega
    have hd : ¬s.pool.length < chain.length - 1 := by omega
    have hg : get_professional s chain 0 = .error .keyTooMany := by
      rw [get_professional, if_neg hn0, if_pos (by omega : s.pool.length < chain.length + 0)]
    have hpoolne : ¬s.pool.length = 0 := by omega
    obtain ⟨hne', hlen', hall', hlast'⟩ := get_professional_ok_elim hdrop
    have hdl : chain.dropLast.length = L + 1 := by
      rw [List.length_dropLast, hlen]; omega
    have hlastkey : findA (s.pool.getD L []) (chain.getD L default) = some pr := by
      have h1 := hlast'
      rw [hdl] at h1
      simp only [Nat.add_sub_cancel, Nat.zero_add] at h1
      rw [entryAt] at h1
      rwa [getD_dropLast chain L default (by omega)] at h1
    have hsubl : s.sub.length = L + 1 := by rw [← hInv.1, hL]
    have hfind_sub : (findA (s.sub.getD L []) (chain.getD L default)).isSome = true :=
      Inv.pool_to_sub hInv (by omega) hlastkey
    obtain ⟨set0, hset0⟩ := Option.isSome_iff_exists.mp hfind_sub
    have hsub_get : (s.sub ++ [[(chain.getD (chain.length - 1) default, [])]]).get? L
        = some (s.sub.getD L []) := by
      rw [List.get?_append (by omega)]
      exact get?_eq_some_getD s.sub L [] (by omega)
    have hixg : chain.length - 1 - 1 = L := by omega
    rw [insert]
    simp only [hn0, if_false, hd, if_false, hg, hpoolne, if_false, hsub_get, hixg, hset0]
    refine ⟨_, rfl, ?_⟩
    simp [hL]

/-- Witness for C8 at a concrete one-level map (`L = 0`). -/
theorem claim_c8_witness :
    insert (⟨[[(1, (none, 5))]], [[(1, [])]]⟩ : LeveledHashMap Nat Nat) [7, 8, 9] 3
      = some (.error .keyTooMany, ⟨[[(1, (none, 5))]], [[(1, [])]]⟩) ∧
    ∃ s', insert (⟨[[(1, (none, 5))]], [[(1, [])]]⟩ : LeveledHashMap Nat Nat) [1, 4] 9
      = some (.ok none, s') ∧ s'.pool.length = 2 :=
  ⟨(claim_c8_insert_depth_limit _ (by decide) 0 (by decide)).1 [7, 8, 9] 3 (by decide),
   (claim_c8_insert_depth_limit _ (by decide) 0 (by decide)).2 [1, 4] 9 (none, 5)
     (by decide) (by decide)⟩

/-! ### Claim C9 -/

/-- Claim C9 (amended): `keys level` returns `none` exactly when `level` is
at or beyond the current number of levels; when present, for every map state
satisfying the structural invariant, its key domain equals the set of keys
`k` for which a get of the single-key chain `[k]` at that level succeeds.
(The original claim quantified over reachable states; the counterexample
shows a reachable invariant-violating state on which it fails.) -/
theorem claim_c9_keys_domain (s : LeveledHashMap K V) (hInv : Inv s) (level : Nat) :
    (keys s level = none ↔ s.pool.length ≤ level) ∧
    (∀ m, keys s level = some m → ∀ k : K,
      ((findA m k).isSome = true ↔ (get_advanced s [k] level).isSome = true)) := by
  constructor
  · rw [keys, List.get?_eq_none, hInv.1]
  · intro m hkeys k
    have hlev : level < s.sub.length := by
      by_contra hc
      rw [keys, List.get?_eq_none.mpr (by omega)] at hkeys
      cases hkeys
    have hlevp : level < s.pool.length := by rw [hInv.1]; omega
    have hmd : s.sub.getD level [] = m := by
      rw [keys] at hkeys
      rw [List.getD_eq_getElem?_getD, ← List.get?_eq_getElem?, hkeys]
      rfl
    constructor
    · intro hsome
      obtain ⟨x, hx⟩ := Option.isSome_iff_exists.mp hsome
      rw [← hmd] at hx
      have hp := hInv.sub_to_pool hlevp hx
      obtain ⟨⟨pp, vv⟩, hpv⟩ := Option.isSome_iff_exists.mp hp
      have hok : get_professional s [k] level = .ok (pp, vv) := by
        apply get_professional_ok_intro s [k] level (by simp) (by simp; omega)
        · intro j hj
          have hj0 : j = 0 := by simp at hj; omega
          subst hj0
          exact ⟨pp, vv, by simpa [entryAt] using hpv, fun h => absurd h (by omega)⟩
        · simpa [entryAt] using hpv
      rw [get_advanced, hok]
      rfl
    · intro hsome
      rw [get_advanced] at hsome
      cases hget : get_professional s [k] level with
      | error e => rw [hget] at hsome; cases hsome
      | ok r =>
        obtain ⟨_, _, _, hlast⟩ := get_professional_ok_elim hget
        simp only [List.length_cons, List.length_nil, Nat.add_sub_cancel, Nat.add_zero,
          List.getD_cons_zero, entryAt] at hlast
        have := hInv.pool_to_sub hlevp hlast
        rwa [hmd] at this

/-- Counterexample for C9 as stated: a state reachable through the public
API (five `insert` calls, none of which panics) in which `keys 1` contains
key 33 while the get of `[33]` at level 1 fails. -/
theorem claim_c9_counterexample :
    runInserts (new : LeveledHashMap Nat Nat)
        [([30], 1), ([30, 31], 2), ([30, 31, 32], 3), ([40], 4), ([30, 40, 33], 5)]
      = some c9badState ∧
    (keys c9badState 1).map (fun m => (findA m 33).isSome) = some true ∧
    get_advanced c9badState [33] 1 = none := by
  decide

/-- Witness for C9 at a concrete invariant-satisfying one-level map. -/
theorem claim_c9_witness :
    (keys (⟨[[(1, (none, 5))]], [[(1, [])]]⟩ : LeveledHashMap Nat Nat) 1 = none ↔
      (1 : Nat) ≤ 1) ∧
    ((findA [(1, ([] : List Nat))] 1).isSome = true ↔
      (get_advanced (⟨[[(1, (none, 5))]], [[(1, [])]]⟩ : LeveledHashMap Nat Nat) [1] 0).isSome
        = true) :=
  ⟨(claim_c9_keys_domain _ (by decide) 1).1,
   (claim_c9_keys_domain _ (by decide) 0).2 [(1, [])] (by decide) 1⟩

/-! ### Claim C5 -/

/-- The validation loop cannot fail (or panic) against an empty level. -/
theorem validateGo_nil_pool (level : Nat) (lastKey : K) :
    ∀ (value temp : List (K × V)), ∃ t,
      validateGo ([] : List (K × (Option K × V))) level lastKey value temp
        = some (.ok t) := by
  intro value
  induction value with
  | nil => intro temp; exact ⟨temp, rfl⟩
  | cons kv rest ih =>
    intro temp
    obtain ⟨k, v⟩ := kv
    simpa [validateGo, findA] using ih (insertA temp k v)

/-- Claim C5: batch-insert atomicity on error — whenever `insert_many`
returns an error (of any of the four kinds), the map is left exactly as it
was before the call. -/
theorem claim_c5_insert_many_error_unchanged (s : LeveledHashMap K V) (chain : List K)
    (value : List (K × V)) (start : Nat) (e : LeveledHashMapError K)
    (s' : LeveledHashMap K V)
    (h : insert_many s chain value start = some (.error e, s')) :
    s' = s := by
  rw [insert_many] at h
  by_cases hg : s.pool.length + 1 < chain.length
  · simp only [hg, if_true] at h
    exact (congrArg Prod.snd (Option.some.inj h)).symm
  · simp only [hg, if_false] at h
    cases hget : get_professional s chain start with
    | ok pr =>
      simp only [hget] at h
      by_cases hpush : s.pool.length ≤ chain.length + start
      · simp only [hpush, if_true] at h
        have hlevel : chain.length + start = s.pool.length := by
          have hle := (get_professional_ok_elim hget).2.1
          omega
        have hget2 : (s.pool ++ [[]]).get? (chain.length + start)
            = some ([] : List (K × (Option K × V))) := by
          rw [hlevel]
          exact List.get?_concat_length s.pool []
        simp only [hget2] at h
        obtain ⟨t, hval⟩ := validateGo_nil_pool (chain.length + start)
          (chain.getD (chain.length - 1) default) value []
        simp only [hval] at h
        cases him : insertManyGo (chain.length + start)
            (chain.getD (chain.length - 1) default)
            (⟨s.pool ++ [[]], s.sub ++ [[]]⟩ : LeveledHashMap K V) t [] with
        | none =>
          simp only [him] at h
          exact Option.noConfusion h
        | some p =>
          simp only [him] at h
          exact Except.noConfusion (congrArg Prod.fst (Option.some.inj h))
      · simp only [hpush, if_false] at h
        cases hp : s.pool.get? (chain.length + start) with
        | none =>
          simp only [hp] at h
          exact Option.noConfusion h
        | some poolL =>
          simp only [hp] at h
          cases hval : validateGo poolL (chain.length + start)
              (chain.getD (chain.length - 1) default) value [] with
          | none =>
            simp only [hval] at h
            exact Option.noConfusion h
          | some r =>
            cases r with
            | error e2 =>
              simp only [hval] at h
              exact (congrArg Prod.snd (Option.some.inj h)).symm
            | ok temp =>
              simp only [hval] at h
              cases him : insertManyGo (chain.length + start)
                  (chain.getD (chain.length - 1) default) s temp [] with
              | none =>
                simp only [him] at h
                exact Option.noConfusion h
              | some p =>
                simp only [him] at h
                exact Except.noConfusion (congrArg Prod.fst (Option.some.inj h))
    | error e2 =>
      simp only [hget] at h
      cases e2 with
      | keyChainIncorrect lv k lk =>
        exact (congrArg Prod.snd (Option.some.inj h)).symm
      | keyNotExist lv k =>
        exact (congrArg Prod.snd (Option.some.inj h)).symm
      | keyTooMany =>
        exact (congrArg Prod.snd (Option.some.inj h)).symm
      | keyChainEmpty =>
        by_cases hs : 0 < start
        · simp only [hs, if_true] at h
          exact (congrArg Prod.snd (Option.some.inj h)).symm
        · simp only [hs, if_false] at h
          by_cases hp0 : s.pool.length = 0
          · simp only [hp0, if_true] at h
            cases him : insertMany0Go (⟨s.pool ++ [[]], s.sub ++ [[]]⟩ : LeveledHashMap K V)
                value [] with
            | none =>
              simp only [him] at h
              exact Option.noConfusion h
            | some p =>
              simp only [him] at h
              exact Except.noConfusion (congrArg Prod.fst (Option.some.inj h))
          · simp only [hp0, if_false] at h
            cases him : insertMany0Go s value [] with
            | none =>
              simp only [him] at h
              exact Option.noConfusion h
            | some p =>
              simp only [him] at h
              exact Except.noConfusion (congrArg Prod.fst (Option.some.inj h))

/-- Witness for C5: an `insert_many` whose conflict scan finds an incoming
key (7) already stored at the target level under a different parent (1 ≠ 2)
fails with `KeyChainIncorrect` and leaves the concrete map intact. -/
theorem claim_c5_witness :
    insert_many
        (⟨[[(1, (none, 1)), (2, (none, 2))], [(7, (some 1, 3))]],
          [[(1, [7]), (2, [])], [(7, [])]]⟩ : LeveledHashMap Nat Nat) [2] [(7, 9)] 0
      = some (.error (.keyChainIncorrect 1 7 (some 1)),
          ⟨[[(1, (none, 1)), (2, (none, 2))], [(7, (some 1, 3))]],
           [[(1, [7]), (2, [])], [(7, [])]]⟩) ∧
    (⟨[[(1, (none, 1)), (2, (none, 2))], [(7, (some 1, 3))]],
      [[(1, [7]), (2, [])], [(7, [])]]⟩ : LeveledHashMap Nat Nat)
      = ⟨[[(1, (none, 1)), (2, (none, 2))], [(7, (some 1, 3))]],
         [[(1, [7]), (2, [])], [(7, [])]]⟩ :=
  ⟨by decide,
   claim_c5_insert_many_error_unchanged _ [2] [(7, 9)] 0
     (.keyChainIncorrect 1 7 (some 1)) _ (by decide)⟩

/-! ### Claims C1, C2, C3, C6 — concrete evaluations exhibiting code bugs -/

/-- Claim C1 (code bug): the descendants list returned by removal is NOT
aligned by relative depth.  Removing key 0 from the reachable map
0 → 1 → 2 → 3 must, per the claim, return
`[{1}, {2}, {3}]` (children, grandchildren, great-grandchildren), but the
merge loop of `remove_professional` (lib.rs lines 637–651) pushes a child's
reversed descendants and merges the depth-2 map into index 1, returning the
two-element list `[{1}, {2, 3}]` instead. -/
theorem claim_c1_remove_not_depth_aligned :
    runInserts (new : LeveledHashMap Nat Nat)
        [([0], 10), ([0, 1], 11), ([0, 1, 2], 12), ([0, 1, 2, 3], 13)] = some c1State ∧
    remove_professional c1State [0] 0
      = some (.ok (none, 10, [[(1, (some 0, 11))], [(2, (some 1, 12)), (3, (some 2, 13))]]),
          ⟨[[], [], [], []], [[], [], [], []]⟩) ∧
    ([[(1, (some 0, 11))], [(2, (some 1, 12)), (3, (some 2, 13))]]
      : List (List (Nat × (Option Nat × Nat)))).length = 2 := by
  decide

/-- Claim C2 (code bug): `insert` panics on caller-supplied bad input.
On the reachable one-level map `{10}`, `insert [1, 2]` reaches the
`KeyTooMany` branch and unwraps `self.sub[0].get_mut(&1)` with key 1 absent
(lib.rs lines 751–753) — a panic (`none` in this model) instead of one of
the four error values.  Likewise, on the reachable map 0 → 1 → 2,
`insert [0, 7, 8]` hits `KeyNotExist` at the intermediate level 1 and then
unwraps `self.sub[0].get_mut(&7)` with key 7 absent (lib.rs lines 782–784). -/
theorem claim_c2_insert_panics :
    insert (new : LeveledHashMap Nat Nat) [10] 100 = some (.ok none, c2State) ∧
    insert c2State [1, 2] 5 = none ∧
    runInserts (new : LeveledHashMap Nat Nat) [([0], 1), ([0, 1], 2), ([0, 1, 2], 3)]
      = some c2State3 ∧
    insert c2State3 [0, 7, 8] 9 = none := by
  decide

/-- Claim C3 (code bug): the pool/child-index domain invariant is NOT
preserved by every public operation.  On the reachable, invariant-satisfying
map `c3Before`, the insert of chain `[10, 20, 13]` hits `KeyNotExist` at the
intermediate level 1 and the handler (lib.rs lines 771–790) inserts key 20
into `pool[1]` but key 13 into `sub[1]` — the call returns `Ok(None)` (no
panic) and leaves the two level-1 domains different. -/
theorem claim_c3_invariant_not_preserved :
    runInserts (new : LeveledHashMap Nat Nat)
        [([10], 1), ([10, 11], 2), ([10, 11, 12], 3), ([20], 4)] = some c3Before ∧
    Inv c3Before ∧
    insert c3Before [10, 20, 13] 5 = some (.ok none,
      (⟨[[(10, (none, 1)), (20, (none, 4))],
        [(11, (some 10, 2)), (20, (some 20, 5))], [(12, (some 11, 3))]],
       [[(10, [11]), (20, [13])], [(11, [12]), (13, [])], [(12, [])]]⟩ : LeveledHashMap Nat Nat)) ∧
    ¬Inv (⟨[[(10, (none, 1)), (20, (none, 4))],
        [(11, (some 10, 2)), (20, (some 20, 5))], [(12, (some 11, 3))]],
       [[(10, [11]), (20, [13])], [(11, [12]), (13, [])], [(12, [])]]⟩ : LeveledHashMap Nat Nat) := by
  decide

/-- Claim C6 (code bug): removal completeness fails.  Removing key 5 (N = 1
direct children, M = 1 grandchildren) from the reachable map 5 → 6 → 7 → 8
must, per the claim, return a descendants list whose index 1 has exactly
M = 1 entries; the code returns index 1 holding 2 entries (the grandchild 7
and the great-grandchild 8 merged together by the faulty depth merge). -/
theorem claim_c6_removal_completeness_fails :
    runInserts (new : LeveledHashMap Nat Nat)
        [([5], 20), ([5, 6], 21), ([5, 6, 7], 22), ([5, 6, 7, 8], 23)] = some c6State ∧
    remove_professional c6State [5] 0
      = some (.ok (none, 20, [[(6, (some 5, 21))], [(7, (some 6, 22)), (8, (some 7, 23))]]),
          ⟨[[], [], [], []], [[], [], [], []]⟩) ∧
    (([[(6, (some 5, 21))], [(7, (some 6, 22)), (8, (some 7, 23))]]
      : List (List (Nat × (Option Nat × Nat)))).getD 1 []).length = 2 := by
  decide

/-! ### Claim C4 -/

/-- Counterexample for C4 as stated: on the reachable map 0 → 1, inserting
the chain `[9, 1, 3]` — whose prefix `[9, 1]` does not resolve (key 9 does
not exist at level 0) — takes the `KeyTooMany`-extend branch of `insert`,
which never validates the prefix (lib.rs lines 736–758).  The insert
returns `Ok(None)`, yet the immediately following `get` of the same chain
fails. -/
theorem claim_c4_counterexample :
    runInserts (new : LeveledHashMap Nat Nat) [([0], 1), ([0, 1], 2)] = some c4State ∧
    (insert c4State [9, 1, 3] 7).map Prod.fst = some (.ok none) ∧
    (insert c4State [9, 1, 3] 7).map (fun r => get r.2 [9, 1, 3]) = some none := by
  decide

/-- Positions of a resolvable strict chain head (`chain.dropLast`), read off
against the full chain. -/
theorem dropLast_facts {s : LeveledHashMap K V} {chain : List K} {pr : Option K × V}
    (hdrop : get_professional s chain.dropLast 0 = .ok pr) :
    ∀ j, j < chain.length - 1 → ∃ p v,
      entryAt s.pool (0 + j) (chain.getD j default) = some (p, v) ∧
      (0 < j → p = some (chain.getD (j - 1) default)) := by
  obtain ⟨hne', hlen', hall', hlast'⟩ := get_professional_ok_elim hdrop
  intro j hj
  have hjd : j < chain.dropLast.length := by
    rw [List.length_dropLast]; omega
  obtain ⟨p, v, h1, h2⟩ := hall' j hjd
  have hg1 : chain.dropLast.getD j default = chain.getD j default :=
    getD_dropLast chain j default (by rw [List.length_dropLast] at hjd; omega)
  refine ⟨p, v, by rwa [hg1] at h1, ?_⟩
  intro hjpos
  have := h2 hjpos
  rwa [getD_dropLast chain (j - 1) default (by omega)] at this

/-- The length bound extracted from a `KeyNotExist` resolution failure. -/
theorem get_professional_notExist_len {s : LeveledHashMap K V} {chain : List K}
    {start lv : Nat} {k : K}
    (h : get_professional s chain start = .error (.keyNotExist lv k)) :
    ¬chain.length = 0 ∧ chain.length + start ≤ s.pool.length := by
  rw [get_professional] at h
  by_cases h0 : chain.length = 0
  · simp only [h0, if_true] at h
    exact absurd (Except.error.inj h) (by intro hc; cases hc)
  · refine ⟨h0, ?_⟩
    by_cases h1 : s.pool.length < chain.length + start
    · simp only [h0, h1, if_true, if_false] at h
      exact absurd (Except.error.inj h) (by intro hc; cases hc)
    · omega

/-- Rebuild a successful `get` after an update that placed the value `v` with
a lineage-consistent parent at the chain's last position. -/
theorem roundtrip_core (s' : LeveledHashMap K V) (chain : List K) (v : V) (P : Option K)
    (hne : chain ≠ [])
    (hlen : chain.length ≤ s'.pool.length)
    (hpos : ∀ j, j < chain.length - 1 → ∃ p vv,
      entryAt s'.pool (0 + j) (chain.getD j default) = some (p, vv) ∧
      (0 < j → p = some (chain.getD (j - 1) default)))
    (hlast : entryAt s'.pool (chain.length - 1) (chain.getD (chain.length - 1) default)
      = some (P, v))
    (hP : 0 < chain.length - 1 → P = some (chain.getD (chain.length - 1 - 1) default)) :
    get s' chain = some v := by
  have hok : get_professional s' chain 0 = .ok (P, v) := by
    apply get_professional_ok_intro s' chain 0 hne (by omega)
    · intro j hj
      by_cases hjd : j = chain.length - 1
      · subst hjd
        refine ⟨P, v, by simpa using hlast, ?_⟩
        intro hp
        simpa using hP hp
      · have hj' : j < chain.length - 1 := by
          have := List.length_pos.mpr hne
          omega
        exact hpos j hj'
    · simpa using hlast
  rw [get, get_advanced, hok]
  rfl

/-- Updating one level leaves entries of other levels unchanged. -/
theorem entryAt_set_ne (pool : List (List (K × (Option K × V)))) (i j : Nat)
    (mnew : List (K × (Option K × V))) (k : K) (h : i ≠ j) :
    entryAt (pool.set i mnew) j k = entryAt pool j k := by
  rw [entryAt, entryAt, getD_set_ne _ _ _ _ _ h]

/-- The entry at an overwritten level is looked up in the new level map. -/
theorem entryAt_set_self (pool : List (List (K × (Option K × V)))) (i : Nat)
    (mnew : List (K × (Option K × V))) (k : K) (h : i < pool.length) :
    entryAt (pool.set i mnew) i k = findA mnew k := by
  rw [entryAt, getD_set_self _ _ _ _ h]

/-- Appending levels leaves entries of existing levels unchanged. -/
theorem entryAt_append_lt (pool extra : List (List (K × (Option K × V)))) (j : Nat)
    (k : K) (h : j < pool.length) :
    entryAt (pool ++ extra) j k = entryAt pool j k := by
  rw [entryAt, entryAt, getD_append_lt _ _ _ _ h]

/-- The entry at a freshly appended level is looked up in the new level map. -/
theorem entryAt_append_len (pool : List (List (K × (Option K × V))))
    (nm : List (K × (Option K × V))) (k : K) :
    entryAt (pool ++ [nm]) pool.length k = findA nm k := by
  rw [entryAt, getD_append_len]

/-- Claim C4 (amended): round-trip holds for prefix-resolvable chains — for
every map state, chain `C` and value `V`, if the strict head of `C` (all but
the last key) resolves at level 0 (or `C` has length 1) and `insert(C, V)`
returns `Ok`, then an immediately following `get(C)` yields `V`.  (The
unamended claim fails because the `KeyTooMany`-extend branch of `insert`
never validates the chain head, and the `KeyNotExist` branch mis-handles a
missing intermediate key; see the counterexample.) -/
theorem claim_c4_insert_get_roundtrip (s : LeveledHashMap K V) (chain : List K) (v : V)
    (r : Option V) (s' : LeveledHashMap K V) (pr : Option K × V)
    (hpre : chain.length = 1 ∨ get_professional s chain.dropLast 0 = .ok pr)
    (hins : insert s chain v = some (.ok r, s')) :
    get s' chain = some v := by
  rw [insert] at hins
  by_cases hn0 : chain.length = 0
  · simp only [hn0, if_true] at hins
    exact absurd (congrArg Prod.fst (Option.some.inj hins)) (by intro hc; cases hc)
  · simp only [hn0, if_false] at hins
    have hne : chain ≠ [] := fun hc => hn0 (by simp [hc])
    by_cases hguard : s.pool.length < chain.length - 1
    · simp only [hguard, if_true] at hins
      exact absurd (congrArg Prod.fst (Option.some.inj hins)) (by intro hc; cases hc)
    · simp only [hguard, if_false] at hins
      cases hget : get_professional s chain 0 with
      | ok pr0 =>
        simp only [hget] at hins
        obtain ⟨_, hlen0, hall0, hlast0⟩ := get_professional_ok_elim hget
        cases hp : s.pool.get? (chain.length - 1) with
        | none =>
          simp only [hp] at hins
          exact Option.noConfusion hins
        | some m =>
          simp only [hp] at hins
          have hm : s.pool.getD (chain.length - 1) [] = m := by
            rw [List.getD_eq_getElem?_getD, ← List.get?_eq_getElem?, hp]
            rfl
          have hdlt : chain.length - 1 < s.pool.length := by omega
          by_cases hd : 0 < chain.length - 1
          · simp only [hd, if_true] at hins
            have hs' := congrArg Prod.snd (Option.some.inj hins)
            subst hs'
            apply roundtrip_core _ chain v (some (chain.getD (chain.length - 1 - 1) default))
              hne (by simp only [List.length_set]; omega)
            · intro j hj
              obtain ⟨p, vv, h1, h2⟩ := hall0 j (by omega)
              refine ⟨p, vv, ?_, h2⟩
              rw [entryAt_set_ne _ _ _ _ _ (by omega)]
              exact h1
            · rw [entryAt_set_self _ _ _ _ hdlt, ← hm]
              exact findA_insertA_self _ _ _
            · intro _
              rfl
          · simp only [hd, if_false] at hins
            have hn1 : chain.length = 1 := by omega
            have hs' := congrArg Prod.snd (Option.some.inj hins)
            subst hs'
            apply roundtrip_core _ chain v none hne (by simp only [List.length_set]; omega)
            · intro j hj
              omega
            · have h0lt : 0 < s.pool.length := by omega
              have hix : chain.length - 1 = 0 := by omega
              rw [hix, entryAt_set_self _ _ _ _ h0lt]
              exact findA_insertA_self _ _ _
            · intro hc
              omega
      | error e =>
        simp only [hget] at hins
        cases e with
        | keyChainEmpty =>
          exact absurd (congrArg Prod.fst (Option.some.inj hins)) (by intro hc; cases hc)
        | keyChainIncorrect lv k lk =>
          exact absurd (congrArg Prod.fst (Option.some.inj hins)) (by intro hc; cases hc)
        | keyTooMany =>
          have htm := get_professional_tooMany_elim hget
          by_cases hpool0 : s.pool.length = 0
          · simp only [hpool0, if_true] at hins
            have hn1 : chain.length = 1 := by omega
            have hnil : s.pool = [] := List.length_eq_zero.mp hpool0
            have hs' := congrArg Prod.snd (Option.some.inj hins)
            subst hs'
            apply roundtrip_core _ chain v none hne (by simp [hn1, hnil])
            · intro j hj
              omega
            · have hix : chain.length - 1 = 0 := by omega
              rw [hix, entryAt, hnil]
              simp [findA]
            · intro hc
              omega
          · simp only [hpool0, if_false] at hins
            have hn2 : chain.length = s.pool.length + 1 := by omega
            rcases hpre with hn1 | hdrop
            · omega
            · cases hsget : (s.sub ++ [[(chain.getD (chain.length - 1) default, [])]]).get?
                  (chain.length - 1 - 1) with
              | none =>
                simp only [hsget] at hins
                exact Option.noConfusion hins
              | some m1 =>
                simp only [hsget] at hins
                cases hfind1 : findA m1 (chain.getD (chain.length - 1 - 1) default) with
                | none =>
                  simp only [hfind1] at hins
                  exact Option.noConfusion hins
                | some set =>
                  simp only [hfind1] at hins
                  have hs' := congrArg Prod.snd (Option.some.inj hins)
                  subst hs'
                  apply roundtrip_core _ chain v
                    (some (chain.getD (chain.length - 1 - 1) default)) hne
                    (by simp only [List.length_append, List.length_cons, List.length_nil]; omega)
                  · intro j hj
                    obtain ⟨p, vv, h1, h2⟩ := dropLast_facts hdrop j hj
                    refine ⟨p, vv, ?_, h2⟩
                    rw [entryAt_append_lt _ _ _ _ (by omega)]
                    exact h1
                  · have hix : chain.length - 1 = s.pool.length := by omega
                    rw [hix, entryAt_append_len]
                    rw [← hix]
                    rw [findA]
                    simp
                  · intro _
                    rfl
        | keyNotExist lv k =>
          obtain ⟨_, hlen3⟩ := get_professional_notExist_len hget
          have hdlt : chain.length - 1 < s.pool.length := by omega
          have hfav : ∀ (hall : ∀ j, j < chain.length - 1 → ∃ p vv,
              entryAt s.pool (0 + j) (chain.getD j default) = some (p, vv) ∧
              (0 < j → p = some (chain.getD (j - 1) default))),
              lv = chain.length - 1 ∧ k = chain.getD (chain.length - 1) default ∧
              entryAt s.pool (chain.length - 1) (chain.getD (chain.length - 1) default)
                = none := by
            intro hall
            cases hfd : findA (s.pool.getD (chain.length - 1) [])
                (chain.getD (chain.length - 1) default) with
            | some pv =>
              obtain ⟨pd, vd⟩ := pv
              by_cases hpd : pd = some (chain.getD (chain.length - 1 - 1) default)
              · by_cases hd1 : 0 < chain.length - 1
                · have hok2 : get_professional s chain 0 = .ok (pd, vd) := by
                    apply get_professional_ok_intro s chain 0 hne (by omega)
                    · intro j hj
                      by_cases hjd : j = chain.length - 1
                      · subst hjd
                        exact ⟨pd, vd, by simpa [entryAt] using hfd,
                          fun _ => by simpa using hpd⟩
                      · exact hall j (by omega)
                    · simpa [entryAt] using hfd
                  rw [hget] at hok2
                  exact absurd hok2 (by intro hc; cases hc)
                · have hok2 : get_professional s chain 0 = .ok (pd, vd) := by
                    apply get_professional_ok_intro s chain 0 hne (by omega)
                    · intro j hj
                      have hj0 : j = 0 := by omega
                      subst hj0
                      have hix : (0 : Nat) = chain.length - 1 := by omega
                      refine ⟨pd, vd, ?_, fun hc => absurd hc (by omega)⟩
                      rw [show (0 : Nat) + 0 = chain.length - 1 by omega]
                      rw [show chain.getD 0 default = chain.getD (chain.length - 1) default by
                        rw [← hix]]
                      simpa [entryAt] using hfd
                    · simpa [entryAt] using hfd
                  rw [hget] at hok2
                  exact absurd hok2 (by intro hc; cases hc)
              · have hd1 : 0 < chain.length - 1 := by
                  by_contra hc
                  have hok2 : get_professional s chain 0 = .ok (pd, vd) := by
                    apply get_professional_ok_intro s chain 0 hne (by omega)
                    · intro j hj
                      have hj0 : j = 0 := by omega
                      subst hj0
                      have hix : (0 : Nat) = chain.length - 1 := by omega
                      refine ⟨pd, vd, ?_, fun hcc => absurd hcc (by omega)⟩
                      rw [show (0 : Nat) + 0 = chain.length - 1 by omega]
                      rw [show chain.getD 0 default = chain.getD (chain.length - 1) default by
                        rw [← hix]]
                      simpa [entryAt] using hfd
                    · simpa [entryAt] using hfd
                  rw [hget] at hok2
                  exact absurd hok2 (by intro hcc; cases hcc)
                have hinc : get_professional s chain 0
                    = .error (.keyChainIncorrect (0 + (chain.length - 1))
                      (chain.getD (chain.length - 1) default) pd) :=
                  get_professional_incorrect_intro s chain 0 (chain.length - 1) pd vd
                    (by omega) hd1 (by omega) hall (by simpa [entryAt] using hfd) hpd
                rw [hget] at hinc
                exact absurd (Except.error.inj hinc) (by intro hc; cases hc)
            | none =>
              have hnx : get_professional s chain 0
                  = .error (.keyNotExist (0 + (chain.length - 1))
                    (chain.getD (chain.length - 1) default)) :=
                get_professional_notExist_intro s chain 0 (chain.length - 1)
                  (by omega) (by omega) hall (by simpa [entryAt] using hfd)
              rw [hget] at hnx
              have hinj := Except.error.inj hnx
              cases hinj
              exact ⟨by omega, rfl, by simpa [entryAt] using hfd⟩
          by_cases hd1 : 0 < chain.length - 1
          · rcases hpre with hn1 | hdrop
            · omega
            · obtain ⟨hlv, hk, hmiss⟩ := hfav (dropLast_facts hdrop)
              subst hlv
              subst hk
              cases hsub : s.sub.get? (chain.length - 1) with
              | none =>
                simp only [hsub] at hins
                exact Option.noConfusion hins
              | some msub =>
                simp only [hsub] at hins
                simp only [hd1, if_true] at hins
                cases hpl : s.pool.get? (chain.length - 1) with
                | none =>
                  simp only [hpl] at hins
                  exact Option.noConfusion hins
                | some mp =>
                  simp only [hpl] at hins
                  have hmp : s.pool.getD (chain.length - 1) [] = mp := by
                    rw [List.getD_eq_getElem?_getD, ← List.get?_eq_getElem?, hpl]
                    rfl
                  cases hsub1 : (s.sub.set (chain.length - 1)
                      (insertA msub (chain.getD (chain.length - 1) default) [])).get?
                      (chain.length - 1 - 1) with
                  | none =>
                    simp only [hsub1] at hins
                    exact Option.noConfusion hins
                  | some m1 =>
                    simp only [hsub1] at hins
                    cases hfind1 : findA m1 (chain.getD (chain.length - 1 - 1) default) with
                    | none =>
                      simp only [hfind1] at hins
                      exact Option.noConfusion hins
                    | some set =>
                      simp only [hfind1] at hins
                      have hs' := congrArg Prod.snd (Option.some.inj hins)
                      subst hs'
                      apply roundtrip_core _ chain v
                        (some (chain.getD (chain.length - 1 - 1) default)) hne
                        (by simp only [List.length_set]; omega)
                      · intro j hj
                        obtain ⟨p, vv, h1, h2⟩ := dropLast_facts hdrop j hj
                        refine ⟨p, vv, ?_, h2⟩
                        rw [entryAt_set_ne _ _ _ _ _ (by omega)]
                        exact h1
                      · rw [entryAt_set_self _ _ _ _ hdlt, ← hmp]
                        exact findA_insertA_self _ _ _
                      · intro _
                        rfl
          · have hn1 : chain.length = 1 := by omega
            obtain ⟨hlv, hk, hmiss⟩ := hfav (by intro j hj; omega)
            subst hlv
            subst hk
            cases hsub : s.sub.get? (chain.length - 1) with
            | none =>
              simp only [hsub] at hins
              exact Option.noConfusion hins
            | some msub =>
              simp only [hsub] at hins
              simp only [hd1, if_false] at hins
              cases hpl : s.pool.get? 0 with
              | none =>
                simp only [hpl] at hins
                exact Option.noConfusion hins
              | some mp =>
                simp only [hpl] at hins
                have hmp : s.pool.getD 0 [] = mp := by
                  rw [List.getD_eq_getElem?_getD, ← List.get?_eq_getElem?, hpl]
                  rfl
                have hs' := congrArg Prod.snd (Option.some.inj hins)
                subst hs'
                apply roundtrip_core _ chain v none hne (by simp only [List.length_set]; omega)
                · intro j hj
                  omega
                · have h0lt : 0 < s.pool.length := by omega
                  have hix : chain.length - 1 = 0 := by omega
                  rw [hix, entryAt_set_self _ _ _ _ h0lt, ← hmp, ← hix]
                  exact findA_insertA_self _ _ _
                · intro hc
                  omega

/-- Witness for C4 at a concrete prefix-resolvable extend insert. -/
theorem claim_c4_witness :
    get_professional c4State ([0, 1, 7] : List Nat).dropLast 0 = .ok (some 0, 2) ∧
    insert c4State [0, 1, 7] 9 = some (.ok none, c4After) ∧
    get c4After [0, 1, 7] = some 9 :=
  ⟨by decide, by decide,
   claim_c4_insert_get_roundtrip c4State [0, 1, 7] 9 none c4After (some 0, 2)
     (Or.inr (by decide)) (by decide)⟩

/-- The embedding passes every assertion of the crate's own integration
test. -/
theorem crateTestReplay_eq_true : crateTestReplay = true := by
  decide

end LeveledHashMap
